import Mathlib

/-!
A verification development for the onefetch repository-summary tool
(a shallow embedding of src/info.rs and src/language.rs).

Conventions of the embedding:
* Rust `usize` counters are `Nat`; `f64` percentages are modelled as `ℚ`
  (the spec's ±0.01 tolerance absorbs the difference).
* Rust panics (out-of-bounds indexing, slicing) are modelled by `Option`:
  `none` is a panic/abort of the surrounding computation.
* Maps iterated and rebuilt by the code are modelled as association lists;
  the code's `HashMap` iteration order is arbitrary, and every property
  proved here is order-insensitive or conditioned accordingly.
-/

namespace Onefetch

/-- The error type of the crate (src: `Error` variants used by `info.rs` /
`language.rs`: `NotGitRepo`, `BareGitRepo`, `SourceCodeNotFound`,
`ReferenceInfoError`, `NoGitData`, `ReadDirectory`). -/
inductive Err
  | NotGitRepo
  | BareGitRepo
  | SourceCodeNotFound
  | ReferenceInfoError
  | NoGitData
  | ReadDirectory
deriving DecidableEq, Repr

/-! ### Language statistics (src/language.rs, `get_languages_stat`,
`get_language_stats`, `get_dominant_language`) -/

/-- src/language.rs lines 339-356, `Language::get_languages_stat`:
sum the per-language code-line counts; if the sum is zero return `None`,
otherwise map every language to `code / sum * 100`.  The tokei map is
modelled as an association list of (language identifier, code lines);
`f64` is modelled as `ℚ`. -/
def get_languages_stat (counts : List (String × Nat)) :
    Option (List (String × ℚ)) :=
  let sum_language_code : Nat := (counts.map (·.2)).sum
  if sum_language_code = 0 then none
  else some (counts.map fun kv =>
    (kv.1, ((kv.2 : ℚ) / (sum_language_code : ℚ)) * 100))

/-- The comparator of src/language.rs line 367:
`a.1.partial_cmp(&b.1).unwrap().reverse()` sorts descending by the
percentage component. -/
def langDescBle (a b : String × ℚ) : Bool := decide (b.2 ≤ a.2)

/-- src/language.rs line 379-385, `get_total_loc`: fold summing the `code`
field over all languages. -/
def get_total_loc (counts : List (String × Nat)) : Nat :=
  counts.foldl (fun sum val => sum + val.2) 0

/-- src/language.rs lines 358-372, `Language::get_language_stats`:
`get_languages_stat` failing maps to `Error::SourceCodeNotFound`; the stat
vector is sorted descending by percentage (stable sort, reversed
comparator); the total line count comes from `get_total_loc`. -/
def get_language_stats (counts : List (String × Nat)) :
    Except Err (List (String × ℚ) × Nat) :=
  match get_languages_stat counts with
  | none => .error .SourceCodeNotFound
  | some languages_stat =>
      .ok (languages_stat.mergeSort langDescBle, get_total_loc counts)

/-- src/language.rs lines 374-376, `Language::get_dominant_language`:
`languages_stat_vec[0].0` — indexing panics on an empty vector, modelled
as `Option`. -/
def get_dominant_language (languages_stat_vec : List (String × ℚ)) :
    Option String :=
  (languages_stat_vec[0]?).map (·.1)

/-! ### Display bucketing of languages (src/info.rs lines 121-131) -/

/-- src/info.rs lines 121-131 (inside `Display for Info`): when more than
6 languages are present, take the first 6, fold the remaining percentages
into a sum, and push a trailing `("Other", sum)` entry; otherwise keep the
list as is.  The language name formatting step is the identity here since
languages are already modelled by their display strings. -/
def bucket_languages (languages : List (String × ℚ)) : List (String × ℚ) :=
  if 6 < languages.length then
    languages.take 6 ++ [("Other", ((languages.drop 6).map (·.2)).sum)]
  else
    languages

/-! ### The dual-stream renderer (src/info.rs lines 261-281) -/

/-- The fixed gutter of src/info.rs line 244: `let center_pad = "   ";`. -/
def center_pad : String := "   "

/-- One emitted row per `writeln!` of the render loop, src/info.rs lines
262-281.  `logo` are the remaining logo lines, `w` is the logo iterator's
declared width (`logo_lines.width()`), `info` the remaining info lines.
* both present: `logo_line` ++ gutter ++ `info_line` (the `{:^}` spec has
  no width, so no padding is applied);
* logo only: the logo line alone;
* info only: `""` left-padded to `w` (i.e. `w` spaces), gutter, info line;
* both exhausted: one final `writeln!(f, "\n")`, i.e. the row `"\n"`
  producing the trailing blank line, then the loop breaks. -/
def render_rows (logo : List String) (w : Nat) (info : List String) :
    List String :=
  match logo, info with
  | logo_line :: ls, info_line :: is =>
      (logo_line ++ center_pad ++ info_line) :: render_rows ls w is
  | logo_line :: ls, [] => logo_line :: render_rows ls w []
  | [], info_line :: is =>
      (String.mk (List.replicate w ' ') ++ center_pad ++ info_line)
        :: render_rows [] w is
  | [], [] => ["\n"]

/-! ### Structural string helpers

Rust's `str` primitives (`split`, `lines`, `trim`, `starts_with`, `join`)
are modelled by structural recursion over the character list of a
`String`, mirroring their Rust semantics (ASCII inputs in this program,
so character-level and byte-level views coincide). -/

/-- Splitting accumulator: `acc` holds the current piece reversed. -/
def splitCharAux (c : Char) : List Char → List Char → List (List Char)
  | [], acc => [acc.reverse]
  | x :: xs, acc =>
      if x = c then acc.reverse :: splitCharAux c xs []
      else splitCharAux c xs (x :: acc)

/-- Rust `str::split(c)`: split on a single separator character; the
empty string yields `[""]`, like Rust's iterator. -/
def splitChar (c : Char) (s : String) : List String :=
  (splitCharAux c s.data []).map String.mk

/-- Rust `str::trim`: strip leading and trailing whitespace. -/
def rustTrim (s : String) : String :=
  String.mk
    (((s.data.dropWhile Char.isWhitespace).reverse.dropWhile
        Char.isWhitespace).reverse)

/-- Rust `str::starts_with(pre)`. -/
def rustStartsWith (s pre : String) : Bool := pre.data.isPrefixOf s.data

/-- Rust `[String]::join(sep)`. -/
def rustJoin (sep : String) : List String → String
  | [] => ""
  | [x] => x
  | x :: rest => x ++ sep ++ rustJoin sep rest

/-- Lexicographic order on character lists by code point — Rust's `str`
ordering (UTF-8 byte order coincides with code-point order). -/
def charListLe : List Char → List Char → Bool
  | [], _ => true
  | _ :: _, [] => false
  | a :: as, b :: bs =>
      if a = b then charListLe as bs else decide (a.toNat < b.toNat)

/-- Rust's `String` ordering, used by `Vec::sort`. -/
def stringLe (a b : String) : Bool := charListLe a.data b.data

/-! ### The pending-change summarizer (src/info.rs lines 536-585,
`Info::get_pending_changes`) -/

/-- Rust `str::lines` restricted to `'\n'` separators (the git outputs
parsed here contain no `'\r'`): split on `'\n'`, a trailing final
newline producing no extra empty line, and the empty string producing no
lines at all. -/
def rustLines (s : String) : List String :=
  if s.data = [] then []
  else
    (splitCharAux '\n'
      (if s.data.getLast? = some '\n' then s.data.dropLast else s.data)
      []).map String.mk

/-- src/info.rs line 559, `&line[..2]`: the two leading characters of the
line; a shorter line makes the Rust slice panic, modelled as `none`.
(The model indexes characters, adequate for the ASCII status output.) -/
def linePrefix2 (line : String) : Option String :=
  if 2 ≤ line.length then some (String.mk (line.toList.take 2)) else none

/-- Which pending counter a trimmed status code feeds. -/
inductive PendKind
  | deleted
  | added
  | modified
  | other
deriving DecidableEq, Repr

/-- src/info.rs lines 561-566: match on `prefix.trim()`. -/
def classifyPrefix (p : String) : PendKind :=
  match rustTrim p with
  | "D" => .deleted
  | "A" | "AM" | "??" => .added
  | "M" | "MM" | "R" => .modified
  | _ => .other

/-- Total classification of a whole status line (its two leading
characters, trimmed); used to state skipping properties. -/
def classifyLine (line : String) : PendKind :=
  classifyPrefix (String.mk (line.toList.take 2))

/-- The counting loop of src/info.rs lines 558-567 with its running
`(deleted, added, modified)` accumulator; a line shorter than two
characters panics (`none`). -/
def pendingCountsAux : List String → Nat × Nat × Nat →
    Option (Nat × Nat × Nat)
  | [], acc => some acc
  | line :: rest, acc =>
      match linePrefix2 line with
      | none => none
      | some p =>
          pendingCountsAux rest
            (match classifyPrefix p with
              | .deleted => (acc.1 + 1, acc.2.1, acc.2.2)
              | .added => (acc.1, acc.2.1 + 1, acc.2.2)
              | .modified => (acc.1, acc.2.1, acc.2.2 + 1)
              | .other => acc)

/-- src/info.rs lines 554-567: the counting loop over status lines,
started from zero counters. -/
def pendingCounts (lines : List String) : Option (Nat × Nat × Nat) :=
  pendingCountsAux lines (0, 0, 0)

/-- src/info.rs lines 569-583: build the result string from the three
counters and trim it. -/
def formatPending (deleted added modified : Nat) : String :=
  let result := ""
  let result := if 0 < modified then toString modified ++ "+-" else result
  let result :=
    if 0 < added then result ++ " " ++ toString added ++ "+" else result
  let result :=
    if 0 < deleted then result ++ " " ++ toString deleted ++ "-" else result
  rustTrim result

/-- src/info.rs lines 536-585, `Info::get_pending_changes`, given the
captured `git status --porcelain` output: empty output short-circuits to
`""`; otherwise count the lines and format.  `none` models a panic. -/
def get_pending_changes (output : String) : Option String :=
  if output = "" then some ""
  else
    (pendingCounts (rustLines output)).map fun dam =>
      formatPending dam.1 dam.2.1 dam.2.2

/-! ### The author reducer (src/info.rs lines 453-483,
`Info::get_authors`; lines 661-672 `get_creation_date`; lines 531-534
`get_number_of_commits`) -/

/-- src/info.rs line 458: `line.split('\u{09}').collect::<Vec<_>>()[1]` —
the field after the first tab; a line without a tab makes the index
panic (`none`). -/
def extractAuthor (line : String) : Option String := (splitChar '\t' line)[1]?

/-- src/info.rs lines 459-460: `authors.entry(author).or_insert(0); *c += 1`
on the association-list model of the `HashMap`: increment the existing
entry or append a fresh one with count 1. -/
def bump : List (String × Nat) → String → List (String × Nat)
  | [], a => [(a, 1)]
  | (k, c) :: rest, a =>
      if k = a then (k, c + 1) :: rest else (k, c) :: bump rest a

/-- The counting loop of src/info.rs lines 457-462 with its running
accumulator; `none` models the index panic on a tab-less line. -/
def countAuthorsAux : List String → List (String × Nat) →
    Option (List (String × Nat))
  | [], acc => some acc
  | line :: rest, acc =>
      match extractAuthor line with
      | none => none
      | some a => countAuthorsAux rest (bump acc a)

/-- src/info.rs lines 455-462: the counting loop over history lines,
started from the empty map. -/
def countAuthors (git_history : List String) :
    Option (List (String × Nat)) :=
  countAuthorsAux git_history []

/-- The author field of every history line (`none` as soon as one line is
malformed); used to state well-formedness of a history. -/
def extractAuthors : List String → Option (List String)
  | [] => some []
  | l :: ls =>
      match extractAuthor l, extractAuthors ls with
      | some a, some as => some (a :: as)
      | _, _ => none

/-- src/info.rs lines 464-466: `sort_by_key(count)` (ascending, stable)
followed by `reverse()`. -/
def sortAuthorsDesc (authors : List (String × Nat)) : List (String × Nat) :=
  (authors.mergeSort (fun a b => decide (a.2 ≤ b.2))).reverse

/-- The quote character trimmed from author names (src/info.rs line 474,
`trim_matches('\'')`). -/
def quoteChar : Char := Char.ofNat 39

/-- Rust `str::trim_matches(c)`: strip every leading and trailing
occurrence of `c`. -/
def trimMatches (c : Char) (s : String) : String :=
  String.mk (((s.toList.dropWhile (· = c)).reverse.dropWhile (· = c)).reverse)

/-- src/info.rs lines 453-483, `Info::get_authors`: count commits per
author (total = number of history lines), sort descending by count,
truncate to `n`, and map each entry to
`(trimmed name, count, count * 100 / total)` with integer floor
division.  `none` models the panic on a malformed history line. -/
def get_authors (git_history : List String) (n : Nat) :
    Option (List (String × Nat × Nat)) :=
  (countAuthors git_history).map fun counts =>
    let total_commits := git_history.length
    ((sortAuthorsDesc counts).take n).map fun ac =>
      (trimMatches quoteChar ac.1, ac.2, ac.2 * 100 / total_commits)

/-- src/info.rs lines 661-672, `Info::get_creation_date`: the last history
line's field before the first tab, `"??"` when the history is empty. -/
def get_creation_date (git_history : List String) : String :=
  match git_history.getLast? with
  | some creation_time => (splitChar '\t' creation_time).headD ""
  | none => "??"

/-- src/info.rs lines 531-534, `Info::get_number_of_commits`. -/
def get_number_of_commits (git_history : List String) : String :=
  toString git_history.length

/-! ### License detection (src/info.rs lines 17, 674-712,
`Info::get_project_license`) -/

/-- src/info.rs line 17: `LICENSE_FILES`. -/
def LICENSE_FILES : List String := ["LICENSE", "LICENCE", "COPYING"]

/-- src/info.rs lines 676-680, `is_license_file`: the file name starts
with one of the canonical license file names. -/
def is_license_file (file_name : String) : Bool :=
  LICENSE_FILES.any fun name => rustStartsWith file_name name

/-- Rust `Vec::dedup`: remove consecutive duplicates. -/
def dedupConsec : List String → List String
  | [] => []
  | [a] => [a]
  | a :: b :: rest =>
      if a = b then dedupConsec (b :: rest)
      else a :: dedupConsec (b :: rest)

/-- src/info.rs lines 674-712, `Info::get_project_license`, with the
directory scan abstracted to the list of (file name, contents) pairs and
the license classifier (`Detector::analyze`) abstracted to
`detector : String → Option String`: filter candidate files by name,
collect the non-`none` classifications, sort, dedup (consecutive, hence
full after sorting), join with `", "`, and fall back to `"??"` when the
joined string is empty. -/
def get_project_license (entries : List (String × String))
    (detector : String → Option String) : String :=
  let output :=
    (entries.filter fun entry => is_license_file entry.1).filterMap
      fun entry => detector entry.2
  let output := dedupConsec (output.mergeSort stringLe)
  let joined := rustJoin ", " output
  if joined = "" then "??" else joined

/-! ### The orchestrator (src/info.rs lines 288-363, `Info::new`) -/

/-- src/info.rs lines 419-422: the `Configuration` record produced by
`get_configuration`. -/
structure Configuration where
  repository_name : String
  repository_url : String
deriving Repr, DecidableEq

/-- The assembled summary record (the data fields of `struct Info`,
src/info.rs lines 19-43; display configuration fields are omitted as they
do not flow through the probes). -/
structure Info where
  git_version : String
  git_username : String
  project_name : String
  current_commit : String
  version : String
  creation_date : String
  dominant_language : String
  languages : List (String × ℚ)
  authors : List (String × Nat × Nat)
  last_change : String
  repo : String
  commits : String
  pending : String
  repo_size : String
  number_of_lines : Nat
  license : String
deriving Repr

/-- The probes issued by `Info::new` after the two critical checks
(src/info.rs lines 306-331): the language scan, then the ten joined
futures. -/
inductive Probe
  | languageStats
  | configuration
  | gitHistory
  | currentCommit
  | gitInfo
  | version
  | pending
  | packedSize
  | lastChange
  | license
  | dominantLanguage
deriving DecidableEq, Repr

/-- The environment an `Info::new` invocation runs against: the outcomes
of repository discovery and of each external interaction, so that the
orchestration (ordering, abort policy) itself can be analysed.  Probes
whose parsing is modelled elsewhere in this file receive their raw
inputs (`lang_counts`, `history_lines`, `status_output`,
`license_entries`); the remaining probes' results are given directly. -/
structure Env where
  /-- `Repository::discover` outcome (src/info.rs line 303); `none` means
  the path is not a repository. -/
  discover : Option Unit
  /-- `repo.workdir()` (src/info.rs line 304); `none` means bare. -/
  workdir : Option String
  /-- the tokei per-language code counts fed to `get_language_stats`. -/
  lang_counts : List (String × Nat)
  /-- `get_configuration` result (src/info.rs lines 386-423). -/
  config_result : Except Err Configuration
  /-- the `git log --pretty=format:%cr%x09%an` lines. -/
  history_lines : List String
  /-- `get_current_commit_info` result, rendered (lines 425-451). -/
  commit_info_result : Except Err String
  /-- `git --version` and configured user name (lines 485-507). -/
  git_version : String
  git_username : String
  /-- `get_version` result string (lines 509-529). -/
  version_str : String
  /-- the raw `git status --porcelain` output (lines 536-585). -/
  status_output : String
  /-- `get_packed_size` result string (lines 587-637). -/
  repo_size_str : String
  /-- `get_last_change` result string (lines 639-659). -/
  last_change_str : String
  /-- whether `fs::read_dir` succeeds in the license scan (line 684). -/
  license_dir_readable : Bool
  /-- the top-level (file name, contents) entries for the license scan. -/
  license_entries : List (String × String)
  /-- the license classifier `Detector::analyze`. -/
  license_detector : String → Option String
  /-- the requested author-list size. -/
  author_nb : Nat

/-- src/info.rs lines 288-363, `Info::new`, instrumented with the list of
probes it invokes (in program order).  The two critical checks
(`Repository::discover`, `repo.workdir()`) run first and abort with
`NotGitRepo` / `BareGitRepo` before any probe; then the language scan
(whose failure also aborts, after only that probe ran); then the ten
futures are all joined; then the fallible results are unwrapped by `?` in
source order (config, current commit, license read).  The outer `Option`
models a panic inside a probe or reducer. -/
def info_new (env : Env) : Option (Except Err Info) × List Probe :=
  match env.discover with
  | none => (some (.error .NotGitRepo), [])
  | some _ =>
  match env.workdir with
  | none => (some (.error .BareGitRepo), [])
  | some _ =>
  match get_language_stats env.lang_counts with
  | .error e => (some (.error e), [.languageStats])
  | .ok (languages_stats, number_of_lines) =>
    let trace : List Probe :=
      [.languageStats, .configuration, .gitHistory, .currentCommit,
       .gitInfo, .version, .pending, .packedSize, .lastChange, .license,
       .dominantLanguage]
    match get_pending_changes env.status_output with
    | none => (none, trace)
    | some pending =>
    match get_dominant_language languages_stats with
    | none => (none, trace)
    | some dominant_language =>
    match get_authors env.history_lines env.author_nb with
    | none => (none, trace)
    | some authors =>
    match env.config_result with
    | .error e => (some (.error e), trace)
    | .ok conf =>
    match env.commit_info_result with
    | .error e => (some (.error e), trace)
    | .ok current_commit =>
    if env.license_dir_readable then
      (some (.ok
        { git_version := env.git_version
          git_username := env.git_username
          project_name := conf.repository_name
          current_commit := current_commit
          version := env.version_str
          creation_date := get_creation_date env.history_lines
          dominant_language := dominant_language
          languages := languages_stats
          authors := authors
          last_change := env.last_change_str
          repo := conf.repository_url
          commits := get_number_of_commits env.history_lines
          pending := pending
          repo_size := env.repo_size_str
          number_of_lines := number_of_lines
          license :=
            get_project_license env.license_entries env.license_detector }),
       trace)
    else (some (.error .ReadDirectory), trace)

/-! ## Helper lemmas -/

theorem render_rows_logo_only (w : Nat) :
    ∀ ls : List String, render_rows ls w [] = ls ++ ["\n"]
  | [] => by simp [render_rows]
  | _ :: ls => by
      simp only [render_rows, render_rows_logo_only w ls, List.cons_append]

theorem render_rows_info_only (w : Nat) :
    ∀ is : List String,
      render_rows [] w is =
        is.map (fun i => String.mk (List.replicate w ' ') ++ center_pad ++ i)
          ++ ["\n"]
  | [] => by simp [render_rows]
  | _ :: is => by
      simp only [render_rows, render_rows_info_only w is, List.map_cons,
        List.cons_append]

/-! ## Claim theorems -/

/-- C2: the dual-stream renderer emits, in order, one row per index where
both streams are live (`logo_line ++ gutter ++ info_line`, no extra
padding), then the remaining logo lines alone, then the remaining info
lines each prefixed by `w` spaces and the gutter, and finally the single
trailing blank line (the `"\n"` row); in particular it emits exactly
`max m n` content rows before the trailing blank line. -/
theorem render_rows_spec (logo : List String) (w : Nat) (info : List String) :
    render_rows logo w info =
      (List.zipWith (fun l i => l ++ center_pad ++ i) logo info)
        ++ logo.drop info.length
        ++ ((info.drop logo.length).map
            (fun i => String.mk (List.replicate w ' ') ++ center_pad ++ i))
        ++ ["\n"]
    ∧ (render_rows logo w info).length = max logo.length info.length + 1 := by
  have shape : ∀ (logo info : List String),
      render_rows logo w info =
        (List.zipWith (fun l i => l ++ center_pad ++ i) logo info)
          ++ logo.drop info.length
          ++ ((info.drop logo.length).map
              (fun i => String.mk (List.replicate w ' ') ++ center_pad ++ i))
          ++ ["\n"] := by
    intro logo
    induction logo with
    | nil =>
        intro info
        simp [render_rows_info_only w info]
    | cons l ls ih =>
        intro info
        cases info with
        | nil => simp [render_rows_logo_only w]
        | cons i is =>
            simp only [render_rows, ih is, List.zipWith_cons_cons,
              List.length_cons, List.drop_succ_cons, List.cons_append]
  refine ⟨shape logo info, ?_⟩
  rw [shape logo info]
  simp only [List.length_append, List.length_zipWith, List.length_drop,
    List.length_map, List.length_cons, List.length_nil]
  omega

/-- C4: for a ranked language list with more than 6 entries, the bucketed
display list has exactly 7 entries, its first 6 entries are the input's
first 6 in rank order, and its last entry is the synthetic
`("Other", sum of the dropped entries' percentages)`. -/
theorem bucket_languages_spec (langs : List (String × ℚ))
    (h : 6 < langs.length) :
    (bucket_languages langs).length = 7 ∧
    (bucket_languages langs).take 6 = langs.take 6 ∧
    (bucket_languages langs).getLast? =
      some ("Other", ((langs.drop 6).map (·.2)).sum) := by
  have htake : (langs.take 6).length = 6 :=
    langs.length_take_of_le (Nat.le_of_lt h)
  unfold bucket_languages
  rw [if_pos h]
  refine ⟨?_, ?_, ?_⟩
  · simp [htake]
  · rw [List.take_append_of_le_length (by omega), List.take_take]
    simp
  · exact List.getLast?_concat _

/-- Witness for C4 at a concrete 7-language input. -/
theorem bucket_languages_spec_witness :
    (bucket_languages
      [("a", (40 : ℚ)), ("b", 20), ("c", 10), ("d", 10), ("e", 8),
       ("f", 6), ("g", 4), ("h", 2)]).length = 7 ∧
    (bucket_languages
      [("a", (40 : ℚ)), ("b", 20), ("c", 10), ("d", 10), ("e", 8),
       ("f", 6), ("g", 4), ("h", 2)]).take 6 =
      ([("a", (40 : ℚ)), ("b", 20), ("c", 10), ("d", 10), ("e", 8),
        ("f", 6), ("g", 4), ("h", 2)] : List (String × ℚ)).take 6 ∧
    (bucket_languages
      [("a", (40 : ℚ)), ("b", 20), ("c", 10), ("d", 10), ("e", 8),
       ("f", 6), ("g", 4), ("h", 2)]).getLast? =
      some ("Other",
        ((([("a", (40 : ℚ)), ("b", 20), ("c", 10), ("d", 10), ("e", 8),
          ("f", 6), ("g", 4), ("h", 2)] : List (String × ℚ)).drop 6).map
            (·.2)).sum) :=
  bucket_languages_spec _ (by decide)

theorem sum_map_ratio (l : List (String × Nat)) (q : ℚ) :
    (l.map fun kv => ((kv.2 : ℚ) / q) * 100).sum =
      (((l.map (·.2)).sum : ℕ) : ℚ) / q * 100 := by
  induction l with
  | nil => simp
  | cons kv rest ih =>
      simp only [List.map_cons, List.sum_cons, ih]
      push_cast
      ring

theorem langDescBle_trans (a b c : String × ℚ) (h1 : langDescBle a b = true)
    (h2 : langDescBle b c = true) : langDescBle a c = true := by
  simp only [langDescBle, decide_eq_true_eq] at *
  exact h2.trans h1

theorem langDescBle_total (a b : String × ℚ) :
    (langDescBle a b || langDescBle b a) = true := by
  simp only [langDescBle, Bool.or_eq_true, decide_eq_true_eq]
  exact le_total b.2 a.2

/-- C3: whenever at least one language has a positive code-line count, the
language-statistics reducer succeeds, the resulting percentages sum to
100 within 0.01 (in the exact-rational model the sum is exactly 100), and
the list is sorted non-increasing by percentage; when every count is
zero it fails with `SourceCodeNotFound` (the spec's `NoSourceCodeFound`). -/
theorem get_language_stats_spec (counts : List (String × Nat)) :
    ((∃ e ∈ counts, 0 < e.2) →
      ∃ stats loc, get_language_stats counts = .ok (stats, loc) ∧
        |(stats.map (·.2)).sum - 100| ≤ 1 / 100 ∧
        stats.Pairwise (fun a b : String × ℚ => b.2 ≤ a.2)) ∧
    ((∀ e ∈ counts, e.2 = 0) →
      get_language_stats counts = .error .SourceCodeNotFound) := by
  constructor
  · rintro ⟨e, he, hpos⟩
    have hS : (counts.map (·.2)).sum ≠ 0 := by
      intro h0
      have : e.2 ≤ (counts.map (·.2)).sum :=
        List.single_le_sum (by simp) _ (List.mem_map_of_mem (·.2) he)
      omega
    have hstat : get_languages_stat counts =
        some (counts.map fun kv =>
          (kv.1, ((kv.2 : ℚ) / ((counts.map (·.2)).sum : ℕ)) * 100)) := by
      simp only [get_languages_stat, if_neg hS]
    refine ⟨(counts.map fun kv =>
        (kv.1, ((kv.2 : ℚ) / ((counts.map (·.2)).sum : ℕ)) * 100)).mergeSort
          langDescBle,
      get_total_loc counts, by simp only [get_language_stats, hstat], ?_, ?_⟩
    · have hperm :
          ((counts.map fun kv =>
            (kv.1, ((kv.2 : ℚ) / ((counts.map (·.2)).sum : ℕ)) * 100)).mergeSort
              langDescBle).Perm
            (counts.map fun kv =>
              (kv.1, ((kv.2 : ℚ) / ((counts.map (·.2)).sum : ℕ)) * 100)) :=
        List.mergeSort_perm _ _
      rw [(hperm.map (·.2)).sum_eq]
      have : ((counts.map fun kv =>
          (kv.1, ((kv.2 : ℚ) / ((counts.map (·.2)).sum : ℕ)) * 100)).map
            (·.2)) =
          counts.map fun kv =>
            ((kv.2 : ℚ) / ((counts.map (·.2)).sum : ℕ)) * 100 := by
        simp [List.map_map]
      rw [this, sum_map_ratio, div_self (by exact_mod_cast hS), one_mul]
      simp
    · have := List.sorted_mergeSort langDescBle_trans langDescBle_total
        (counts.map fun kv =>
          (kv.1, ((kv.2 : ℚ) / ((counts.map (·.2)).sum : ℕ)) * 100))
      exact this.imp fun h => by
        simpa [langDescBle, decide_eq_true_eq] using h
  · intro hall
    have hS : (counts.map (·.2)).sum = 0 :=
      List.sum_eq_zero (by
        intro x hx
        rcases List.mem_map.1 hx with ⟨e, he, rfl⟩
        exact hall e he)
    simp only [get_language_stats, get_languages_stat, if_pos hS]

/-- Witness for C3 at a concrete two-language input. -/
theorem get_language_stats_spec_witness :
    ∃ stats loc,
      get_language_stats [("Rust", 30), ("C", 70)] = .ok (stats, loc) ∧
      |(stats.map (·.2)).sum - 100| ≤ 1 / 100 ∧
      stats.Pairwise (fun a b : String × ℚ => b.2 ≤ a.2) :=
  (get_language_stats_spec [("Rust", 30), ("C", 70)]).1
    ⟨("Rust", 30), by decide, by decide⟩

/-- C10: whenever the language-statistics probe succeeds, the ranked
language list it returns is non-empty, so the rank-0 dominant-language
selection (`languages_stat_vec[0]`, a panicking index in the source,
`Option` here) is always defined. -/
theorem get_dominant_language_total (counts : List (String × Nat))
    (h : (get_language_stats counts).isOk = true) :
    ∃ stats loc, get_language_stats counts = .ok (stats, loc) ∧
      stats ≠ [] ∧ (get_dominant_language stats).isSome = true := by
  unfold get_language_stats at h ⊢
  cases hs : get_languages_stat counts with
  | none => rw [hs] at h; simp [Except.isOk, Except.toBool] at h
  | some stats0 =>
      refine ⟨stats0.mergeSort langDescBle, get_total_loc counts, rfl, ?_⟩
      have hstats0 : stats0 ≠ [] := by
        by_cases hS : (counts.map (·.2)).sum = 0
        · rw [get_languages_stat, if_pos hS] at hs
          exact absurd hs (by simp)
        · rw [get_languages_stat, if_neg hS] at hs
          have hc : counts ≠ [] := by
            intro hnil
            rw [hnil] at hS
            simp at hS
          obtain ⟨rfl⟩ : (counts.map fun kv =>
              (kv.1, ((kv.2 : ℚ) /
                (((counts.map (·.2)).sum : ℕ) : ℚ)) * 100)) = stats0 := by
            simpa using hs
          simpa using hc
      have hne : stats0.mergeSort langDescBle ≠ [] := by
        intro hnil
        have := (List.mergeSort_perm stats0 langDescBle).length_eq
        rw [hnil] at this
        exact hstats0 (List.eq_nil_of_length_eq_zero this.symm)
      refine ⟨hne, ?_⟩
      cases hd : stats0.mergeSort langDescBle with
      | nil => exact absurd hd hne
      | cons x xs => simp [get_dominant_language]

/-- Witness for C10 at a concrete one-language input. -/
theorem get_dominant_language_total_witness :
    ∃ stats loc, get_language_stats [("Rust", 30)] = .ok (stats, loc) ∧
      stats ≠ [] ∧ (get_dominant_language stats).isSome = true :=
  get_dominant_language_total [("Rust", 30)] (by decide)

theorem bump_sum : ∀ (acc : List (String × Nat)) (a : String),
    ((bump acc a).map (·.2)).sum = ((acc.map (·.2)).sum) + 1
  | [], a => by simp [bump]
  | (k, c) :: rest, a => by
      by_cases h : k = a
      · simp [bump, h]
        omega
      · simp [bump, h, bump_sum rest a]
        omega

theorem bump_keys_mem : ∀ (acc : List (String × Nat)) (a x : String),
    x ∈ (bump acc a).map (·.1) ↔ x ∈ acc.map (·.1) ∨ x = a
  | [], a, x => by simp [bump]
  | (k, c) :: rest, a, x => by
      by_cases h : k = a
      · subst h
        simp [bump]
        tauto
      · simp [bump, h, bump_keys_mem rest a x]
        tauto

theorem bump_keys_nodup : ∀ (acc : List (String × Nat)) (a : String),
    (acc.map (·.1)).Nodup → ((bump acc a).map (·.1)).Nodup
  | [], a, _ => by simp [bump]
  | (k, c) :: rest, a, h => by
      by_cases hk : k = a
      · simpa [bump, hk] using h
      · simp only [List.map_cons, List.nodup_cons] at h
        obtain ⟨h1, h2⟩ := h
        simp only [bump, if_neg hk, List.map_cons, List.nodup_cons]
        refine ⟨?_, bump_keys_nodup rest a h2⟩
        rw [bump_keys_mem]
        rintro (hmem | rfl)
        · exact h1 hmem
        · exact hk rfl

theorem foldl_bump_sum : ∀ (as : List String) (acc : List (String × Nat)),
    ((as.foldl bump acc).map (·.2)).sum = ((acc.map (·.2)).sum) + as.length
  | [], acc => by simp
  | a :: as, acc => by
      simp only [List.foldl_cons, foldl_bump_sum as (bump acc a), bump_sum,
        List.length_cons]
      omega

theorem foldl_bump_keys_mem :
    ∀ (as : List String) (acc : List (String × Nat)) (x : String),
      x ∈ (as.foldl bump acc).map (·.1) ↔ x ∈ acc.map (·.1) ∨ x ∈ as
  | [], acc, x => by simp
  | a :: as, acc, x => by
      simp only [List.foldl_cons, foldl_bump_keys_mem as (bump acc a) x,
        bump_keys_mem, List.mem_cons]
      tauto

theorem foldl_bump_keys_nodup :
    ∀ (as : List String) (acc : List (String × Nat)),
      (acc.map (·.1)).Nodup → ((as.foldl bump acc).map (·.1)).Nodup
  | [], _, h => h
  | a :: as, acc, h =>
      foldl_bump_keys_nodup as (bump acc a) (bump_keys_nodup acc a h)

theorem counts_keys_perm_dedup (as : List String) :
    ((as.foldl bump []).map (·.1)).Perm as.dedup := by
  rw [List.perm_ext_iff_of_nodup
    (foldl_bump_keys_nodup as [] (by simp)) as.nodup_dedup]
  intro x
  rw [foldl_bump_keys_mem, List.mem_dedup]
  simp

theorem countAuthorsAux_eq :
    ∀ (ls : List String) (acc : List (String × Nat)),
      countAuthorsAux ls acc = (extractAuthors ls).map fun as =>
        as.foldl bump acc
  | [], acc => rfl
  | l :: ls, acc => by
      rw [countAuthorsAux, extractAuthors]
      cases he : extractAuthor l with
      | none => rfl
      | some a =>
          have h1 := countAuthorsAux_eq ls (bump acc a)
          cases hm : extractAuthors ls <;> rw [hm] at h1 <;> simp [h1, hm]

theorem countAuthors_eq (lines : List String) :
    countAuthors lines =
      (extractAuthors lines).map fun as => as.foldl bump [] :=
  countAuthorsAux_eq lines []

theorem extractAuthors_length :
    ∀ {l l' : List String}, extractAuthors l = some l' →
      l'.length = l.length
  | [], l', h => by
      rw [extractAuthors] at h
      cases h
      rfl
  | x :: xs, l', h => by
      rw [extractAuthors] at h
      cases he : extractAuthor x with
      | none => rw [he] at h; exact absurd h (by simp)
      | some a =>
          rw [he] at h
          cases hm : extractAuthors xs with
          | none => rw [hm] at h; exact absurd h (by simp)
          | some as =>
              rw [hm] at h
              cases h
              simp [extractAuthors_length hm]

theorem countAuthors_sum (git_history : List String)
    (counts : List (String × Nat))
    (hc : countAuthors git_history = some counts) :
    (counts.map (·.2)).sum = git_history.length := by
  rw [countAuthors_eq] at hc
  cases hm : extractAuthors git_history with
  | none => rw [hm] at hc; simp at hc
  | some as =>
      rw [hm] at hc
      simp only [Option.map_some', Option.some.injEq] at hc
      rw [← hc, foldl_bump_sum]
      simp [extractAuthors_length hm]

theorem mem_counts_le_sum {l : List (String × Nat)} {e : String × Nat}
    (he : e ∈ l) : e.2 ≤ (l.map (·.2)).sum :=
  List.single_le_sum (by simp) _ (List.mem_map_of_mem (·.2) he)

theorem sortAuthorsDesc_perm (l : List (String × Nat)) :
    (sortAuthorsDesc l).Perm l :=
  (List.reverse_perm _).trans (List.mergeSort_perm l _)

theorem sortAuthorsDesc_sorted (l : List (String × Nat)) :
    (sortAuthorsDesc l).Pairwise fun x y : String × Nat => y.2 ≤ x.2 := by
  unfold sortAuthorsDesc
  rw [List.pairwise_reverse]
  have := @List.sorted_mergeSort (String × Nat)
    (fun a b : String × Nat => decide (a.2 ≤ b.2))
    (fun a b c h1 h2 => by
      simp only [decide_eq_true_eq] at *
      exact h1.trans h2)
    (fun a b => by
      simp only [Bool.or_eq_true, decide_eq_true_eq]
      exact le_total a.2 b.2)
    l
  exact this.imp fun h => by simpa using h

/-- C6: on a well-formed history (every line has a tab), the per-author
counts sum to the number of commit records; the truncated author list has
length `min n (number of distinct author labels)` and is sorted
descending by commit count. -/
theorem get_authors_shape (git_history : List String) (n : Nat)
    (as : List String) (h : extractAuthors git_history = some as) :
    ∃ counts res,
      countAuthors git_history = some counts ∧
      (counts.map (·.2)).sum = git_history.length ∧
      get_authors git_history n = some res ∧
      res.length = min n as.dedup.length ∧
      res.Pairwise (fun x y : String × Nat × Nat => y.2.1 ≤ x.2.1) := by
  have hc : countAuthors git_history = some (as.foldl bump []) := by
    rw [countAuthors_eq, h]
    rfl
  refine ⟨as.foldl bump [],
    ((sortAuthorsDesc (as.foldl bump [])).take n).map fun ac =>
      (trimMatches quoteChar ac.1, ac.2, ac.2 * 100 / git_history.length),
    hc, countAuthors_sum _ _ hc, ?_, ?_, ?_⟩
  · rw [get_authors, hc]
    rfl
  · simp only [List.length_map, List.length_take]
    congr 1
    rw [(sortAuthorsDesc_perm _).length_eq]
    have := (counts_keys_perm_dedup as).length_eq
    simpa using this
  · rw [List.pairwise_map]
    exact List.Pairwise.sublist (List.take_sublist n _)
      (sortAuthorsDesc_sorted _)

/-- Witness for C6 at a concrete three-commit history. -/
theorem get_authors_shape_witness :
    ∃ counts res,
      countAuthors ["a\tBob", "b\tAl", "c\tBob"] = some counts ∧
      (counts.map (·.2)).sum = ["a\tBob", "b\tAl", "c\tBob"].length ∧
      get_authors ["a\tBob", "b\tAl", "c\tBob"] 5 = some res ∧
      res.length = min 5 (["Bob", "Al", "Bob"].dedup).length ∧
      res.Pairwise (fun x y : String × Nat × Nat => y.2.1 ≤ x.2.1) :=
  get_authors_shape ["a\tBob", "b\tAl", "c\tBob"] 5 ["Bob", "Al", "Bob"]
    (by rfl)

/-- C5: for a non-empty history, every displayed author entry's
percentage is `count * 100 / total` by integer floor division (`total` =
number of commit records), hence at most 100. -/
theorem get_authors_percentages (git_history : List String) (n : Nat)
    (res : List (String × Nat × Nat)) (hne : git_history ≠ [])
    (h : get_authors git_history n = some res) :
    ∀ e ∈ res,
      e.2.2 = e.2.1 * 100 / git_history.length ∧ e.2.2 ≤ 100 := by
  unfold get_authors at h
  cases hc : countAuthors git_history with
  | none => rw [hc] at h; simp at h
  | some counts =>
      rw [hc] at h
      simp only [Option.map_some', Option.some.injEq] at h
      subst h
      intro e he
      obtain ⟨ac, hac, rfl⟩ := List.mem_map.1 he
      refine ⟨rfl, ?_⟩
      have hmem : ac ∈ counts :=
        (sortAuthorsDesc_perm counts).subset ((List.take_sublist n _).subset hac)
      have hsum := countAuthors_sum _ _ hc
      have hle : ac.2 ≤ git_history.length := hsum ▸ mem_counts_le_sum hmem
      have hL : 0 < git_history.length := List.length_pos.2 hne
      calc ac.2 * 100 / git_history.length
          ≤ git_history.length * 100 / git_history.length :=
            Nat.div_le_div_right (Nat.mul_le_mul_right _ hle)
        _ = 100 := Nat.mul_div_cancel_left _ hL

unseal List.merge List.mergeSort in
/-- Witness for C5 at a concrete three-commit history, evaluated at its
top author entry. -/
theorem get_authors_percentages_witness :
    (("Bob", 2, 66) : String × Nat × Nat).2.2 =
        ("Bob", 2, 66).2.1 * 100 / ["a\tBob", "b\tAl", "c\tBob"].length ∧
      (("Bob", 2, 66) : String × Nat × Nat).2.2 ≤ 100 :=
  get_authors_percentages ["a\tBob", "b\tAl", "c\tBob"] 2
    [("Bob", 2, 66), ("Al", 1, 33)] (by decide) (by rfl)
    ("Bob", 2, 66) (by decide)

theorem pendingCountsAux_eq :
    ∀ (ls : List String) (acc : Nat × Nat × Nat),
      (∀ l ∈ ls, 2 ≤ l.length) →
      pendingCountsAux ls acc = some
        (acc.1 +
          ls.countP (fun l => decide (classifyLine l = PendKind.deleted)),
         acc.2.1 +
          ls.countP (fun l => decide (classifyLine l = PendKind.added)),
         acc.2.2 +
          ls.countP (fun l => decide (classifyLine l = PendKind.modified)))
  | [], acc, _ => by simp [pendingCountsAux]
  | l :: ls, acc, h => by
      have hl : 2 ≤ l.length := h l (List.mem_cons_self l ls)
      have hp : linePrefix2 l = some (String.mk (l.toList.take 2)) := by
        rw [linePrefix2, if_pos hl]
      have ih := fun acc' => pendingCountsAux_eq ls acc'
        (fun x hx => h x (List.mem_cons_of_mem l hx))
      have key : classifyPrefix (String.mk (l.toList.take 2)) =
        classifyLine l := rfl
      rw [pendingCountsAux, hp]
      dsimp only
      rw [key]
      cases hcl : classifyLine l <;>
        simp [ih _, List.countP_cons, hcl] <;> omega

/-- C7: on non-empty status output whose lines all have at least two
characters, the pending-change summarizer formats exactly the counts of
deleted-, added/untracked- and modified/renamed-classified lines
(unrecognized codes counted nowhere); the mandated example yields
`"1+- 1+ 1-"`, empty output yields `""`, and every combination of
present/absent counters renders with the `+-`/`+`/`-` suffixes,
space-joined and trimmed. -/
theorem get_pending_changes_spec :
    (∀ s : String, s ≠ "" → (∀ l ∈ rustLines s, 2 ≤ l.length) →
      get_pending_changes s = some (formatPending
        ((rustLines s).countP
          (fun l => decide (classifyLine l = PendKind.deleted)))
        ((rustLines s).countP
          (fun l => decide (classifyLine l = PendKind.added)))
        ((rustLines s).countP
          (fun l => decide (classifyLine l = PendKind.modified))))) ∧
    get_pending_changes "M  a.txt\n?? b.txt\nD  c.txt" =
      some "1+- 1+ 1-" ∧
    get_pending_changes "" = some "" ∧
    get_pending_changes "M  m.txt" = some "1+-" ∧
    get_pending_changes "?? b.txt" = some "1+" ∧
    get_pending_changes "D  c.txt" = some "1-" ∧
    get_pending_changes "?? b.txt\nD  c.txt" = some "1+ 1-" ∧
    get_pending_changes "M  m.txt\n?? b.txt" = some "1+- 1+" ∧
    get_pending_changes "M  m.txt\nD  c.txt" = some "1+- 1-" ∧
    get_pending_changes "XY u.txt" = some "" := by
  refine ⟨?_, by decide, by decide, by decide, by decide, by decide,
    by decide, by decide, by decide, by decide⟩
  intro s hne hlen
  rw [get_pending_changes, if_neg hne, pendingCounts,
    pendingCountsAux_eq (rustLines s) (0, 0, 0) hlen]
  simp

/-- Witness for C7's general clause at the mandated example input. -/
theorem get_pending_changes_spec_witness :
    get_pending_changes "M  a.txt\n?? b.txt\nD  c.txt" =
      some (formatPending
        ((rustLines "M  a.txt\n?? b.txt\nD  c.txt").countP
          (fun l => decide (classifyLine l = PendKind.deleted)))
        ((rustLines "M  a.txt\n?? b.txt\nD  c.txt").countP
          (fun l => decide (classifyLine l = PendKind.added)))
        ((rustLines "M  a.txt\n?? b.txt\nD  c.txt").countP
          (fun l => decide (classifyLine l = PendKind.modified)))) :=
  get_pending_changes_spec.1 "M  a.txt\n?? b.txt\nD  c.txt"
    (by decide) (by decide)

theorem pendingCountsAux_filter :
    ∀ (ls : List String) (acc : Nat × Nat × Nat),
      (∀ l ∈ ls, 2 ≤ l.length) →
      pendingCountsAux ls acc =
        pendingCountsAux
          (ls.filter fun l => decide (classifyLine l ≠ PendKind.other)) acc
  | [], _, _ => rfl
  | l :: ls, acc, h => by
      have hl : 2 ≤ l.length := h l (List.mem_cons_self l ls)
      have hp : linePrefix2 l = some (String.mk (l.toList.take 2)) := by
        rw [linePrefix2, if_pos hl]
      have ih := fun acc' => pendingCountsAux_filter ls acc'
        (fun x hx => h x (List.mem_cons_of_mem l hx))
      have key : classifyPrefix (String.mk (l.toList.take 2)) =
        classifyLine l := rfl
      rw [List.filter_cons]
      cases hcl : classifyLine l <;>
        simp only [hcl, pendingCountsAux, hp, key, ne_eq,
          decide_not, decide_eq_true_eq] <;>
        simp [pendingCountsAux, hp, key, hcl, ih _]

/-- C8 (amended): a status line of at least two characters whose code is
unrecognized is skipped (the counters are unchanged, so filtering such
lines out does not change the result) and the summarizer completes;
however a status line shorter than two characters makes the summarizer
panic, and a history line lacking the tab separator makes the author
reducer's index panic, aborting the probe. -/
theorem pending_skips_unrecognized :
    (∀ ls : List String, (∀ l ∈ ls, 2 ≤ l.length) →
      (pendingCounts ls).isSome = true ∧
      pendingCounts ls =
        pendingCounts
          (ls.filter fun l => decide (classifyLine l ≠ PendKind.other))) ∧
    get_pending_changes "X" = none ∧
    countAuthors ["three hours ago Bob"] = none := by
  refine ⟨?_, by decide, by decide⟩
  intro ls h
  refine ⟨?_, pendingCountsAux_filter ls (0, 0, 0) h⟩
  rw [pendingCounts, pendingCountsAux_eq ls (0, 0, 0) h]
  rfl

/-- Witness for C8's general clause at a concrete input containing an
unrecognized two-character status code. -/
theorem pending_skips_unrecognized_witness :
    (pendingCounts ["XY u.txt", "M  a.txt"]).isSome = true ∧
    pendingCounts ["XY u.txt", "M  a.txt"] =
      pendingCounts
        (["XY u.txt", "M  a.txt"].filter
          fun l => decide (classifyLine l ≠ PendKind.other)) :=
  pending_skips_unrecognized.1 ["XY u.txt", "M  a.txt"] (by decide)

/-- Counterexample to C8 as stated: a history line that is not in the
time-tab-author format is not skipped — the author reducer's
`collect()[1]` indexing panics (modelled by `none`), aborting the whole
probe instead of completing normally. -/
theorem malformed_history_line_aborts :
    countAuthors ["three hours ago Bob"] = none ∧
    get_authors ["three hours ago Bob"] 3 = none := by
  constructor <;> decide

theorem dedupConsec_const :
    ∀ (l : List String) (v : String), l ≠ [] → (∀ x ∈ l, x = v) →
      dedupConsec l = [v]
  | [], v, h, _ => absurd rfl h
  | [x], v, _, hall => by rw [hall x (by simp)]; rfl
  | x :: y :: rest, v, _, hall => by
      have hx : x = v := hall x (by simp)
      have hy : y = v := hall y (by simp)
      rw [dedupConsec, if_pos (hx.trans hy.symm)]
      exact dedupConsec_const (y :: rest) v (by simp)
        fun z hz => hall z (List.mem_cons_of_mem x hz)

/-- C9: the license detector deduplicates classifications — whenever every
candidate license file classifies to the same non-empty identifier `v`
(at least one doing so), the result is the single string `v`; when no
candidate yields a classification the result is the unknown sentinel
`"??"`; in particular `LICENSE` and `COPYING` both holding MIT text yield
`"MIT"`, not `"MIT, MIT"`. -/
theorem get_project_license_spec :
    (∀ (entries : List (String × String))
        (detector : String → Option String) (v : String),
      v ≠ "" →
      (∃ e ∈ entries, is_license_file e.1 = true ∧ detector e.2 = some v) →
      (∀ e ∈ entries, is_license_file e.1 = true →
        detector e.2 = none ∨ detector e.2 = some v) →
      get_project_license entries detector = v) ∧
    (∀ (entries : List (String × String))
        (detector : String → Option String),
      (∀ e ∈ entries, is_license_file e.1 = true → detector e.2 = none) →
      get_project_license entries detector = "??") ∧
    get_project_license [("LICENSE", "mit text"), ("COPYING", "mit text")]
      (fun s => if s = "mit text" then some "MIT" else none) = "MIT" := by
  have h1 : ∀ (entries : List (String × String))
      (detector : String → Option String) (v : String),
      v ≠ "" →
      (∃ e ∈ entries, is_license_file e.1 = true ∧ detector e.2 = some v) →
      (∀ e ∈ entries, is_license_file e.1 = true →
        detector e.2 = none ∨ detector e.2 = some v) →
      get_project_license entries detector = v := by
    intro entries detector v hv ⟨e, he, hlic, hdet⟩ hall
    rw [get_project_license]
    set out0 := (entries.filter fun entry =>
      is_license_file entry.1).filterMap fun entry => detector entry.2
      with hout0
    have hmem : ∀ x ∈ out0, x = v := by
      intro x hx
      rw [hout0, List.mem_filterMap] at hx
      obtain ⟨a, ha, hda⟩ := hx
      rcases hall a (List.mem_filter.1 ha).1 (List.mem_filter.1 ha).2 with
        h | h
      · rw [h] at hda; cases hda
      · rw [h] at hda; cases hda; rfl
    have hne : out0 ≠ [] := by
      intro hnil
      have : v ∈ out0 := by
        rw [hout0, List.mem_filterMap]
        exact ⟨e, List.mem_filter.2 ⟨he, hlic⟩, hdet⟩
      rw [hnil] at this
      cases this
    have hmem' : ∀ x ∈ out0.mergeSort stringLe, x = v := fun x hx =>
      hmem x ((List.mergeSort_perm out0 stringLe).subset hx)
    have hne' : out0.mergeSort stringLe ≠ [] := by
      intro hnil
      have := (List.mergeSort_perm out0 stringLe).length_eq
      rw [hnil] at this
      exact hne (List.eq_nil_of_length_eq_zero this.symm)
    rw [dedupConsec_const _ v hne' hmem']
    simp [rustJoin, hv]
  refine ⟨h1, ?_, ?_⟩
  · intro entries detector hall
    rw [get_project_license]
    have : ((entries.filter fun entry =>
        is_license_file entry.1).filterMap fun entry => detector entry.2)
          = [] := by
      rw [List.filterMap_eq_nil_iff]
      intro a ha
      exact hall a (List.mem_filter.1 ha).1 (List.mem_filter.1 ha).2
    rw [this, List.mergeSort_nil]
    rfl
  · exact h1 _ _ "MIT" (by decide)
      ⟨("LICENSE", "mit text"), by decide, by decide, by decide⟩
      (by decide)

/-- Witness for C9's sentinel clause: no classification anywhere gives
`"??"`. -/
theorem get_project_license_spec_witness :
    get_project_license [("LICENSE", "unclassifiable")]
      (fun _ => none) = "??" :=
  get_project_license_spec.2.1 [("LICENSE", "unclassifiable")]
    (fun _ => none) (by intro e he hl; rfl)

/-! ### C1: critical-probe failure aborts before any probe runs -/

/-- A concrete environment whose repository discovery fails. -/
def egEnvNoRepo : Env :=
  { discover := none
    workdir := none
    lang_counts := []
    config_result := .error .NoGitData
    history_lines := []
    commit_info_result := .error .ReferenceInfoError
    git_version := ""
    git_username := ""
    version_str := ""
    status_output := ""
    repo_size_str := ""
    last_change_str := ""
    license_dir_readable := true
    license_entries := []
    license_detector := fun _ => none
    author_nb := 0 }

/-- A concrete environment for a bare repository (discovery succeeds, no
working tree). -/
def egEnvBare : Env := { egEnvNoRepo with discover := some () }

/-- C1: when repository discovery fails, `Info::new` returns
`Err(NotGitRepo)` (the spec's `NotARepository`) having invoked no probe
at all; when discovery succeeds but the repository has no working tree it
returns `Err(BareGitRepo)` (`BareRepository`), again with no probe
invoked — in particular no language-stats, history, config, version,
pending, size, last-change or license probe runs and no (partial) `Info`
record is produced. -/
theorem info_new_critical (env : Env) :
    (env.discover = none →
      info_new env = (some (.error .NotGitRepo), [])) ∧
    (∀ u, env.discover = some u → env.workdir = none →
      info_new env = (some (.error .BareGitRepo), [])) := by
  constructor
  · intro h
    rw [info_new, h]
  · intro u hu hw
    rw [info_new, hu, hw]

/-- Witness for C1 at the two concrete environments. -/
theorem info_new_critical_witness :
    info_new egEnvNoRepo = (some (.error .NotGitRepo), []) ∧
    info_new egEnvBare = (some (.error .BareGitRepo), []) :=
  ⟨(info_new_critical egEnvNoRepo).1 rfl,
   (info_new_critical egEnvBare).2 () rfl rfl⟩

end Onefetch
